import Mathlib

/-!
Verification development for the Resonance/Storyboard repository.

The client mixing engine (src/app/page.tsx, duplicated in src/unnamed/part_004),
the voice-assignment table (src/unnamed/part_002) and the audio-URL lifecycle of
handleGenerate are shallowly embedded below.  JavaScript numbers are modelled as
exact rationals; base64 decoding (an effectful browser API) is modelled by its
result: an Option AudioBuffer where none stands for decodeAudioData throwing.
-/

namespace Resonance

/-- A decoded audio buffer (Web Audio AudioBuffer): per-channel sample data at a
sample rate.  Real buffers have equal-length channels; the frame count is the
length of the first channel, matching AudioBuffer.length for such buffers. -/
structure AudioBuffer where
  sampleRate : ℚ
  channels : List (List ℚ)
deriving Repr, DecidableEq

def AudioBuffer.numberOfChannels (b : AudioBuffer) : ℕ := b.channels.length

def AudioBuffer.frames (b : AudioBuffer) : ℕ := (b.channels.headD []).length

/-- AudioBuffer.duration = length / sampleRate (Web Audio semantics). -/
def AudioBuffer.duration (b : AudioBuffer) : ℚ := (b.frames : ℚ) / b.sampleRate

/-- src/app/page.tsx line 6: one scene-grouped unit of spoken content. -/
structure ScriptDialogueLine where
  sceneIndex : ℕ
  lineIndex : ℕ
  character : String
  text : String
deriving Repr, DecidableEq

/-- src/app/page.tsx lines 8-9: SfxItem and MusicItem have identical shape
(sceneIndex, prompt, startTime, audioBase64); the base64 payload is modelled by
its decode result (none = decodeB64Audio throws). -/
structure ClipItem where
  sceneIndex : ℕ
  prompt : String
  startTime : ℚ
  decoded : Option AudioBuffer
deriving Repr, DecidableEq

/-- src/app/page.tsx line 115. -/
def GAP_DLG_TO_DLG : ℚ := 12 / 100

/-- src/app/page.tsx line 116. -/
def GAP_BETWEEN_SCENES : ℚ := 1 / 2

/-- src/app/page.tsx line 183 (local constant TARGET_PEAK inside mixAudio). -/
def TARGET_PEAK : ℚ := 6 / 10

/-- src/app/page.tsx line 200: fixed music attenuation gain. -/
def MUSIC_GAIN : ℚ := 18 / 100

/-- src/app/page.tsx line 136: new AudioContext().createBuffer(1, 1, 44100),
the silent placeholder pushed when decoding a dialogue clip fails.
createBuffer zero-initialises its single 1-frame channel. -/
def silentBuffer : AudioBuffer := { sampleRate := 44100, channels := [[0]] }

/-- src/app/page.tsx line 147: lineBuffers[i]?.duration ?? 0. -/
def durAt (bufs : List AudioBuffer) (i : ℕ) : ℚ :=
  ((bufs.get? i).map AudioBuffer.duration).getD 0

/-- src/app/page.tsx lines 143-144: the gap added to the cursor between
consecutive dialogue lines. -/
def gapQ (prev cur : ScriptDialogueLine) : ℚ :=
  if prev.sceneIndex ≠ cur.sceneIndex then GAP_BETWEEN_SCENES else GAP_DLG_TO_DLG

/-- src/app/page.tsx lines 139-148: the dialogue-timeline loop.  The cursor
starts at 0; each iteration first adds the inter-line gap (for i > 0), records
the line start, then advances the cursor by the decoded duration of line i.
Returns (startTimes, final cursor); the index argument tracks the loop
variable i used to address lineBuffers. -/
def placeRec (bufs : List AudioBuffer) :
    List ScriptDialogueLine → ℕ → ℚ → List ℚ × ℚ
  | [], _, cursor => ([], cursor)
  | [_], i, cursor => ([cursor], cursor + durAt bufs i)
  | l :: l2 :: rest, i, cursor =>
      let r := placeRec bufs (l2 :: rest) (i + 1) (cursor + durAt bufs i + gapQ l l2)
      (cursor :: r.1, r.2)

/-- src/app/page.tsx lines 154 and 162: sceneStartTimes[item.sceneIndex] ?? item.startTime. -/
def placedStart (sceneStartTimes : List ℚ) (it : ClipItem) : ℚ :=
  (sceneStartTimes.get? it.sceneIndex).getD it.startTime

/-- src/app/page.tsx lines 186-188: nested peak scan over all channels,
peak = max of |sample| starting from 0. -/
def AudioBuffer.peak (b : AudioBuffer) : ℚ :=
  b.channels.foldl (fun p data => data.foldl (fun q s => max q |s|) p) 0

/-- src/app/page.tsx line 192: gain.gain.value = peak > 0 ? TARGET_PEAK / peak : TARGET_PEAK. -/
def sfxGain (b : AudioBuffer) : ℚ :=
  if 0 < b.peak then TARGET_PEAK / b.peak else TARGET_PEAK

/-- src/app/page.tsx lines 170-171: reduce((m, c) => Math.max(m, startTime + duration), 0). -/
def clipsEnd (clips : List (AudioBuffer × ℚ)) : ℚ :=
  clips.foldl (fun m c => max m (c.2 + c.1.duration)) 0

/-- The arguments of mixAudio (src/app/page.tsx lines 126-132) with every
base64 clip replaced by its decode result. -/
structure MixInput where
  linesDecoded : List (Option AudioBuffer)
  dialogueLines : List ScriptDialogueLine
  sfxList : List ClipItem
  musicList : List ClipItem
  sceneStartTimes : List ℚ
deriving Repr, DecidableEq

/-- One source node scheduled on the offline context: its buffer, its start
offset, and the value of the gain node it is connected through (1 when the
source is connected straight to the destination). -/
structure ScheduledClip where
  buffer : AudioBuffer
  startTime : ℚ
  gain : ℚ
deriving Repr, DecidableEq

/-- Everything mixAudio computes before rendering: the dialogue start times,
the three groups of scheduled sources, and the offline-context sizing. -/
structure MixResult where
  startTimes : List ℚ
  dialogueScheduled : List ScheduledClip
  sfxScheduled : List ScheduledClip
  musicScheduled : List ScheduledClip
  sampleRate : ℚ
  numChannels : ℕ
  totalDuration : ℚ
  renderLength : ℤ
deriving Repr, DecidableEq

/-- src/app/page.tsx lines 133-137: the dialogue decode loop; a failed decode
pushes the silent placeholder buffer, so indexing stays aligned. -/
def lineBuffersOf (inp : MixInput) : List AudioBuffer :=
  inp.linesDecoded.map (fun o => o.getD silentBuffer)

/-- src/app/page.tsx lines 150-164: the SFX/music decode loops; a failed decode
skips the clip, a successful one is paired with its placement time. -/
def decodedClipsOf (sceneStartTimes : List ℚ) (items : List ClipItem) :
    List (AudioBuffer × ℚ) :=
  items.filterMap
    (fun it => it.decoded.map (fun b => (b, placedStart sceneStartTimes it)))

/-- src/app/page.tsx lines 126-206: mixAudio.  Decode failures already appear
in the input as none; the dialogue decode loop (lines 133-137) substitutes
silentBuffer, the SFX/music loops (lines 150-164) skip the clip.  Rendering and
WAV/ObjectURL serialisation consume the schedule and are out of model. -/
def mixAudio (inp : MixInput) : MixResult :=
  let lineBuffers := lineBuffersOf inp
  let placed := placeRec lineBuffers inp.dialogueLines 0 0
  let startTimes := placed.1
  let cursor := placed.2
  let sfxDecoded := decodedClipsOf inp.sceneStartTimes inp.sfxList
  let musicDecoded := decodedClipsOf inp.sceneStartTimes inp.musicList
  let sampleRate := ((lineBuffers.get? 0).map AudioBuffer.sampleRate).getD 44100
  let numChannels := ((lineBuffers.get? 0).map AudioBuffer.numberOfChannels).getD 1
  let totalDuration := max cursor (max (clipsEnd sfxDecoded) (clipsEnd musicDecoded))
  { startTimes := startTimes
    dialogueScheduled := (List.range lineBuffers.length).map
      (fun i => { buffer := lineBuffers.getD i silentBuffer
                  startTime := startTimes.getD i 0
                  gain := 1 })
    sfxScheduled := sfxDecoded.map
      (fun c => { buffer := c.1, startTime := c.2, gain := sfxGain c.1 })
    musicScheduled := musicDecoded.map
      (fun c => { buffer := c.1, startTime := c.2, gain := MUSIC_GAIN })
    sampleRate := sampleRate
    numChannels := numChannels
    totalDuration := totalDuration
    renderLength := max 1 ⌈totalDuration * sampleRate⌉ }

/-- src/unnamed/part_004 lines 350-447: the second mixAudio.  Its only textual
difference from the page.tsx version is that the dialogue decode-failure
handler also closes its temporary AudioContext (lines 362-364), which does not
affect the produced buffer; the mixing math is written out identically. -/
def mixAudioUpload (inp : MixInput) : MixResult :=
  let lineBuffers := inp.linesDecoded.map (fun o => o.getD silentBuffer)
  let placed := placeRec lineBuffers inp.dialogueLines 0 0
  let startTimes := placed.1
  let cursor := placed.2
  let sfxDecoded := inp.sfxList.filterMap
    (fun it => it.decoded.map (fun b => (b, placedStart inp.sceneStartTimes it)))
  let musicDecoded := inp.musicList.filterMap
    (fun it => it.decoded.map (fun b => (b, placedStart inp.sceneStartTimes it)))
  let sampleRate := ((lineBuffers.get? 0).map AudioBuffer.sampleRate).getD 44100
  let numChannels := ((lineBuffers.get? 0).map AudioBuffer.numberOfChannels).getD 1
  let totalDuration := max cursor (max (clipsEnd sfxDecoded) (clipsEnd musicDecoded))
  { startTimes := startTimes
    dialogueScheduled := (List.range lineBuffers.length).map
      (fun i => { buffer := lineBuffers.getD i silentBuffer
                  startTime := startTimes.getD i 0
                  gain := 1 })
    sfxScheduled := sfxDecoded.map
      (fun c => { buffer := c.1, startTime := c.2, gain := sfxGain c.1 })
    musicScheduled := musicDecoded.map
      (fun c => { buffer := c.1, startTime := c.2, gain := MUSIC_GAIN })
    sampleRate := sampleRate
    numChannels := numChannels
    totalDuration := totalDuration
    renderLength := max 1 ⌈totalDuration * sampleRate⌉ }

/-! ### Projections of mixAudio -/

theorem mixAudio_startTimes (inp : MixInput) :
    (mixAudio inp).startTimes =
      (placeRec (lineBuffersOf inp) inp.dialogueLines 0 0).1 := rfl

theorem mixAudio_dialogueScheduled (inp : MixInput) :
    (mixAudio inp).dialogueScheduled =
      (List.range (lineBuffersOf inp).length).map
        (fun i => { buffer := (lineBuffersOf inp).getD i silentBuffer
                    startTime :=
                      (placeRec (lineBuffersOf inp) inp.dialogueLines 0 0).1.getD i 0
                    gain := 1 }) := rfl

theorem mixAudio_sfxScheduled (inp : MixInput) :
    (mixAudio inp).sfxScheduled =
      (decodedClipsOf inp.sceneStartTimes inp.sfxList).map
        (fun c => { buffer := c.1, startTime := c.2, gain := sfxGain c.1 }) := rfl

theorem mixAudio_musicScheduled (inp : MixInput) :
    (mixAudio inp).musicScheduled =
      (decodedClipsOf inp.sceneStartTimes inp.musicList).map
        (fun c => { buffer := c.1, startTime := c.2, gain := MUSIC_GAIN }) := rfl

theorem mixAudio_totalDuration (inp : MixInput) :
    (mixAudio inp).totalDuration =
      max (placeRec (lineBuffersOf inp) inp.dialogueLines 0 0).2
        (max (clipsEnd (decodedClipsOf inp.sceneStartTimes inp.sfxList))
          (clipsEnd (decodedClipsOf inp.sceneStartTimes inp.musicList))) := rfl

/-! ### Lemmas about the dialogue timeline loop -/

theorem placeRec_fst_length (bufs : List AudioBuffer) :
    ∀ (ls : List ScriptDialogueLine) (i : ℕ) (c : ℚ),
      (placeRec bufs ls i c).1.length = ls.length := by
  intro ls
  induction ls with
  | nil => intro i c; rfl
  | cons l rest ih =>
      intro i c
      cases rest with
      | nil => rfl
      | cons l2 rest2 => simp [placeRec, ih]

theorem placeRec_fst_head (bufs : List AudioBuffer) :
    ∀ (ls : List ScriptDialogueLine) (i : ℕ) (c : ℚ), ls ≠ [] →
      (placeRec bufs ls i c).1.get? 0 = some c := by
  intro ls
  cases ls with
  | nil => intro i c h; exact absurd rfl h
  | cons l rest =>
      intro i c _
      cases rest with
      | nil => rfl
      | cons l2 rest2 => rfl

theorem placeRec_fst_cons_cons (bufs : List AudioBuffer)
    (l l2 : ScriptDialogueLine) (rest2 : List ScriptDialogueLine) (i : ℕ) (c : ℚ) :
    (placeRec bufs (l :: l2 :: rest2) i c).1 =
      c :: (placeRec bufs (l2 :: rest2) (i + 1) (c + durAt bufs i + gapQ l l2)).1 := rfl

theorem placeRec_snd_cons_cons (bufs : List AudioBuffer)
    (l l2 : ScriptDialogueLine) (rest2 : List ScriptDialogueLine) (i : ℕ) (c : ℚ) :
    (placeRec bufs (l :: l2 :: rest2) i c).2 =
      (placeRec bufs (l2 :: rest2) (i + 1) (c + durAt bufs i + gapQ l l2)).2 := rfl

theorem placeRec_fst_singleton (bufs : List AudioBuffer)
    (l : ScriptDialogueLine) (i : ℕ) (c : ℚ) :
    (placeRec bufs [l] i c).1 = [c] := rfl

theorem placeRec_snd_singleton (bufs : List AudioBuffer)
    (l : ScriptDialogueLine) (i : ℕ) (c : ℚ) :
    (placeRec bufs [l] i c).2 = c + durAt bufs i := rfl

theorem placeRec_succ (bufs : List AudioBuffer) :
    ∀ (ls : List ScriptDialogueLine) (i : ℕ) (c : ℚ) (j : ℕ)
      (lj lj1 : ScriptDialogueLine),
      ls.get? j = some lj → ls.get? (j + 1) = some lj1 →
      (placeRec bufs ls i c).1.get? (j + 1) =
        some ((placeRec bufs ls i c).1.getD j 0 + durAt bufs (i + j) + gapQ lj lj1) := by
  intro ls
  induction ls with
  | nil => intro i c j lj lj1 h1 _; simp at h1
  | cons l rest ih =>
      intro i c j lj lj1 h1 h2
      cases rest with
      | nil =>
          cases j with
          | zero => simp at h2
          | succ j => simp at h2
      | cons l2 rest2 =>
          cases j with
          | zero =>
              have hl : l = lj := by simpa using h1
              have hl2 : l2 = lj1 := by simpa using h2
              rw [← hl, ← hl2]
              rw [placeRec_fst_cons_cons]
              rw [List.get?_cons_succ, List.getD_cons_zero]
              rw [placeRec_fst_head bufs (l2 :: rest2) (i + 1)
                (c + durAt bufs i + gapQ l l2) (by simp)]
              rw [Nat.add_zero]
          | succ j =>
              rw [List.get?_cons_succ] at h1 h2
              have hrec := ih (i + 1) (c + durAt bufs i + gapQ l l2) j lj lj1 h1 h2
              rw [placeRec_fst_cons_cons, List.get?_cons_succ, List.getD_cons_succ,
                hrec]
              have harith : i + 1 + j = i + (j + 1) := by omega
              rw [harith]

theorem gapQ_nonneg (a b : ScriptDialogueLine) : 0 ≤ gapQ a b := by
  unfold gapQ GAP_BETWEEN_SCENES GAP_DLG_TO_DLG
  split <;> norm_num

theorem durAt_nonneg (bufs : List AudioBuffer)
    (h : ∀ b ∈ bufs, 0 ≤ b.duration) (i : ℕ) : 0 ≤ durAt bufs i := by
  unfold durAt
  cases hg : bufs.get? i with
  | none => simp
  | some b =>
      have hb : b ∈ bufs := List.get?_mem hg
      simpa using h b hb

theorem placeRec_snd_ge (bufs : List AudioBuffer)
    (h : ∀ b ∈ bufs, 0 ≤ b.duration) :
    ∀ (ls : List ScriptDialogueLine) (i : ℕ) (c : ℚ),
      c ≤ (placeRec bufs ls i c).2 := by
  intro ls
  induction ls with
  | nil => intro i c; exact le_refl c
  | cons l rest ih =>
      intro i c
      cases rest with
      | nil =>
          simp only [placeRec]
          have := durAt_nonneg bufs h i
          linarith
      | cons l2 rest2 =>
          simp only [placeRec]
          have h1 := ih (i + 1) (c + durAt bufs i + gapQ l l2)
          have h2 := durAt_nonneg bufs h i
          have h3 := gapQ_nonneg l l2
          linarith

theorem placeRec_le_fst (bufs : List AudioBuffer)
    (h : ∀ b ∈ bufs, 0 ≤ b.duration) :
    ∀ (ls : List ScriptDialogueLine) (i : ℕ) (c : ℚ),
      ∀ x ∈ (placeRec bufs ls i c).1, c ≤ x := by
  intro ls
  induction ls with
  | nil => intro i c x hx; simp [placeRec] at hx
  | cons l rest ih =>
      intro i c x hx
      cases rest with
      | nil =>
          simp only [placeRec, List.mem_singleton] at hx
          exact hx ▸ le_refl c
      | cons l2 rest2 =>
          simp only [placeRec, List.mem_cons] at hx
          rcases hx with rfl | hx
          · exact le_refl x
          · have h1 := ih (i + 1) (c + durAt bufs i + gapQ l l2) x hx
            have h2 := durAt_nonneg bufs h i
            have h3 := gapQ_nonneg l l2
            linarith

theorem placeRec_sorted (bufs : List AudioBuffer)
    (h : ∀ b ∈ bufs, 0 ≤ b.duration) :
    ∀ (ls : List ScriptDialogueLine) (i : ℕ) (c : ℚ),
      (placeRec bufs ls i c).1.Sorted (· ≤ ·) := by
  intro ls
  induction ls with
  | nil => intro i c; simp [placeRec]
  | cons l rest ih =>
      intro i c
      cases rest with
      | nil => simp [placeRec]
      | cons l2 rest2 =>
          simp only [placeRec, List.sorted_cons]
          refine ⟨fun x hx => ?_, ih (i + 1) _⟩
          have h1 := placeRec_le_fst bufs h (l2 :: rest2)
            (i + 1) (c + durAt bufs i + gapQ l l2) x hx
          have h2 := durAt_nonneg bufs h i
          have h3 := gapQ_nonneg l l2
          linarith

theorem placeRec_end_le (bufs : List AudioBuffer)
    (h : ∀ b ∈ bufs, 0 ≤ b.duration) :
    ∀ (ls : List ScriptDialogueLine) (i : ℕ) (c : ℚ) (j : ℕ), j < ls.length →
      (placeRec bufs ls i c).1.getD j 0 + durAt bufs (i + j) ≤
        (placeRec bufs ls i c).2 := by
  intro ls
  induction ls with
  | nil => intro i c j hj; simp at hj
  | cons l rest ih =>
      intro i c j hj
      cases rest with
      | nil =>
          have hj0 : j = 0 := by simp at hj; omega
          subst hj0
          rw [placeRec_fst_singleton, placeRec_snd_singleton, List.getD_cons_zero,
            Nat.add_zero]
      | cons l2 rest2 =>
          cases j with
          | zero =>
              rw [placeRec_fst_cons_cons, placeRec_snd_cons_cons, List.getD_cons_zero,
                Nat.add_zero]
              have h1 := placeRec_snd_ge bufs h (l2 :: rest2)
                (i + 1) (c + durAt bufs i + gapQ l l2)
              have h3 := gapQ_nonneg l l2
              linarith
          | succ j =>
              have hj2 : j < (l2 :: rest2).length := by
                simpa using Nat.lt_of_succ_lt_succ (by simpa using hj)
              have hrec := ih (i + 1) (c + durAt bufs i + gapQ l l2) j hj2
              rw [placeRec_fst_cons_cons, placeRec_snd_cons_cons, List.getD_cons_succ]
              have harith : i + 1 + j = i + (j + 1) := by omega
              rw [harith] at hrec
              exact hrec

theorem gapQ_eq (a b : ScriptDialogueLine) :
    gapQ a b =
      if a.sceneIndex = b.sceneIndex then GAP_DLG_TO_DLG else GAP_BETWEEN_SCENES := by
  unfold gapQ
  by_cases hs : a.sceneIndex = b.sceneIndex <;> simp [hs]

theorem durAt_of_get (bufs : List AudioBuffer) (j : ℕ) (b : AudioBuffer)
    (hb : bufs.get? j = some b) : durAt bufs j = b.duration := by
  unfold durAt
  rw [hb]
  rfl

/-! ### C1: dialogue timeline placement -/

/-- The 3-line scenario of the spec: two lines in scene 0, one in scene 1. -/
def exLine (s k : ℕ) : ScriptDialogueLine :=
  { sceneIndex := s, lineIndex := k, character := "A", text := "t" }

/-- Decoded buffers of durations 1s, 1.5s, 2s (frames / sampleRate). -/
def exBufs : List AudioBuffer :=
  [ { sampleRate := 2, channels := [[0, 0]] },
    { sampleRate := 2, channels := [[0, 0, 0]] },
    { sampleRate := 2, channels := [[0, 0, 0, 0]] } ]

def exLines : List ScriptDialogueLine := [exLine 0 0, exLine 0 1, exLine 1 2]

/-- C1.  Dialogue timeline placement: The startTimes of mixAudio are exactly the
timeline loop placeRec over the decoded line buffers; the first line starts at
time 0; for every i > 0 the start of line i is the start of line i-1 plus the
duration of decoded buffer i-1 plus 0.12s when the two lines share a
sceneIndex and 0.5s when they differ; and on the spec scenario (durations 1s
and 1.5s in scene 0, 2s in scene 1) the start times are [0, 1.12, 3.12]
(= [0, 28/25, 78/25] as exact rationals). -/
theorem dialogue_timeline_placement (bufs : List AudioBuffer)
    (lines : List ScriptDialogueLine) :
    (lines ≠ [] → (placeRec bufs lines 0 0).1.get? 0 = some 0) ∧
    (∀ (j : ℕ) (lj lj1 : ScriptDialogueLine) (bj : AudioBuffer),
      lines.get? j = some lj → lines.get? (j + 1) = some lj1 →
      bufs.get? j = some bj →
      (placeRec bufs lines 0 0).1.get? (j + 1) =
        some ((placeRec bufs lines 0 0).1.getD j 0 + bj.duration +
          (if lj.sceneIndex = lj1.sceneIndex then GAP_DLG_TO_DLG
           else GAP_BETWEEN_SCENES))) ∧
    (∀ inp : MixInput, (mixAudio inp).startTimes =
      (placeRec (inp.linesDecoded.map (fun o => o.getD silentBuffer))
        inp.dialogueLines 0 0).1) ∧
    (placeRec exBufs exLines 0 0).1 = [0, 28/25, 78/25] := by
  refine ⟨fun hne => placeRec_fst_head bufs lines 0 0 hne, ?_, fun _ => rfl, ?_⟩
  · intro j lj lj1 bj h1 h2 hb
    have hrec := placeRec_succ bufs lines 0 0 j lj lj1 h1 h2
    rw [Nat.zero_add] at hrec
    rw [hrec, durAt_of_get bufs j bj hb, gapQ_eq]
  · norm_num [placeRec, durAt, gapQ, exLines, exLine, exBufs, AudioBuffer.duration,
      AudioBuffer.frames, GAP_DLG_TO_DLG, GAP_BETWEEN_SCENES]

/-- Witness for C1 at the spec scenario: line 0 starts at 0 and line 1 starts
at start(0) + duration(buffer 0) + the same-scene gap. -/
theorem dialogue_timeline_placement_witness :
    (placeRec exBufs exLines 0 0).1.get? 0 = some 0 ∧
    (placeRec exBufs exLines 0 0).1.get? 1 =
      some ((placeRec exBufs exLines 0 0).1.getD 0 0 +
        AudioBuffer.duration { sampleRate := 2, channels := [[0, 0]] } +
        (if (exLine 0 0).sceneIndex = (exLine 0 1).sceneIndex then GAP_DLG_TO_DLG
         else GAP_BETWEEN_SCENES)) :=
  ⟨(dialogue_timeline_placement exBufs exLines).1 (by simp [exLines]),
   (dialogue_timeline_placement exBufs exLines).2.1 0 (exLine 0 0) (exLine 0 1)
     { sampleRate := 2, channels := [[0, 0]] } rfl rfl rfl⟩

/-! ### C2: per-scene start times (spec-modelled producer) -/

/-- Index of the first dialogue line belonging to scene s or to any later
scene (the first clip not preceding scene s on the timeline). -/
def firstIdxFromScene (s : ℕ) : List ScriptDialogueLine → Option ℕ
  | [] => none
  | l :: rest =>
      if s ≤ l.sceneIndex then some 0 else (firstIdxFromScene s rest).map (· + 1)

/-- Modelled from the spec: the generation route that computes sceneStartTimes
is not under src/ (only its consumers in page.tsx and part_004 are).  Spec
section 3 "Timeline" describes a derived ordered sequence of per-scene start
times computed from cumulative durations of preceding dialogue clips plus the
fixed inter-line/inter-scene gaps: scene s starts at the timeline position
reached after all dialogue clips of earlier scenes — the start of its first
dialogue line when it has one, the start of the next line of a later scene
when it has none, and the end-of-dialogue cursor when no later line exists. -/
def sceneStartTimesModel (nScenes : ℕ) (bufs : List AudioBuffer)
    (lines : List ScriptDialogueLine) : List ℚ :=
  (List.range nScenes).map (fun s =>
    match firstIdxFromScene s lines with
    | some i => (placeRec bufs lines 0 0).1.getD i 0
    | none => (placeRec bufs lines 0 0).2)

theorem firstIdxFromScene_spec (s : ℕ) :
    ∀ (lines : List ScriptDialogueLine) (i : ℕ),
      firstIdxFromScene s lines = some i →
      ∃ l, lines.get? i = some l ∧ s ≤ l.sceneIndex := by
  intro lines
  induction lines with
  | nil => intro i h; simp [firstIdxFromScene] at h
  | cons l rest ih =>
      intro i h
      simp only [firstIdxFromScene] at h
      split at h
      next hl =>
        injection h with h2
        subst h2
        exact ⟨l, rfl, hl⟩
      next hl =>
        rw [Option.map_eq_some'] at h
        obtain ⟨i0, hi0, rfl⟩ := h
        obtain ⟨l0, hg, hs2⟩ := ih i0 hi0
        exact ⟨l0, by simpa using hg, hs2⟩

theorem firstIdxFromScene_isSome (s : ℕ) :
    ∀ (lines : List ScriptDialogueLine),
      (∃ l ∈ lines, s ≤ l.sceneIndex) →
      ∃ i, firstIdxFromScene s lines = some i := by
  intro lines
  induction lines with
  | nil => intro h; simp at h
  | cons l rest ih =>
      intro h
      by_cases hl : s ≤ l.sceneIndex
      · exact ⟨0, by simp [firstIdxFromScene, hl]⟩
      · obtain ⟨l0, hmem, hs⟩ := h
        rcases List.mem_cons.mp hmem with rfl | hmem0
        · exact absurd hs hl
        · obtain ⟨i0, hi0⟩ := ih ⟨l0, hmem0, hs⟩
          exact ⟨i0 + 1, by simp [firstIdxFromScene, hl, hi0]⟩

theorem firstIdxFromScene_lt (s : ℕ) (lines : List ScriptDialogueLine) (i : ℕ)
    (h : firstIdxFromScene s lines = some i) : i < lines.length := by
  obtain ⟨l, hg, _⟩ := firstIdxFromScene_spec s lines i h
  exact List.get?_eq_some.mp hg |>.1

/-- The later the scene, the later (or equal) the index of its first
non-preceding line — whatever order the lines appear in. -/
theorem firstIdxFromScene_mono :
    ∀ (lines : List ScriptDialogueLine) (s t i j : ℕ), s ≤ t →
      firstIdxFromScene s lines = some i →
      firstIdxFromScene t lines = some j → i ≤ j := by
  intro lines
  induction lines with
  | nil => intro s t i j _ hs _; simp [firstIdxFromScene] at hs
  | cons l rest ih =>
      intro s t i j hst hs ht
      by_cases hls : s ≤ l.sceneIndex
      · rw [firstIdxFromScene, if_pos hls] at hs
        injection hs with hs2
        omega
      · have hlt : ¬ t ≤ l.sceneIndex := by omega
        rw [firstIdxFromScene, if_neg hls, Option.map_eq_some'] at hs
        rw [firstIdxFromScene, if_neg hlt, Option.map_eq_some'] at ht
        obtain ⟨i0, hi0, rfl⟩ := hs
        obtain ⟨j0, hj0, rfl⟩ := ht
        have := ih s t i0 j0 hst hi0 hj0
        omega

theorem sorted_getD_mono (l : List ℚ) (hs : l.Sorted (· ≤ ·)) (i j : ℕ)
    (hij : i ≤ j) (hj : j < l.length) : l.getD i 0 ≤ l.getD j 0 := by
  rcases Nat.lt_or_ge i j with hlt | hge
  · have hi : i < l.length := lt_trans hlt hj
    rw [List.getD_eq_getElem l 0 hi, List.getD_eq_getElem l 0 hj]
    have hp := List.pairwise_iff_get.mp hs ⟨i, hi⟩ ⟨j, hj⟩ hlt
    simpa [List.get_eq_getElem] using hp
  · have : i = j := le_antisymm hij hge
    rw [this]

/-- Every recorded start time is at most the final cursor. -/
theorem placeRec_getD_le_snd (bufs : List AudioBuffer)
    (hdur : ∀ b ∈ bufs, 0 ≤ b.duration) (ls : List ScriptDialogueLine)
    (j : ℕ) (hj : j < ls.length) :
    (placeRec bufs ls 0 0).1.getD j 0 ≤ (placeRec bufs ls 0 0).2 := by
  have hend := placeRec_end_le bufs hdur ls 0 0 j hj
  have hnn := durAt_nonneg bufs hdur (0 + j)
  linarith

/-- C2.  For every generation result — any scene count, any dialogue-line list
(scenes with no dialogue lines included) — the scene start-time array has one
entry per scene and its values are non-decreasing, given only that the decoded
clip durations are non-negative (true of every real AudioBuffer). -/
theorem sceneStartTimes_length_and_monotone (nScenes : ℕ)
    (bufs : List AudioBuffer) (lines : List ScriptDialogueLine)
    (hdur : ∀ b ∈ bufs, 0 ≤ b.duration) :
    (sceneStartTimesModel nScenes bufs lines).length = nScenes ∧
    (sceneStartTimesModel nScenes bufs lines).Sorted (· ≤ ·) := by
  constructor
  · simp [sceneStartTimesModel]
  · unfold sceneStartTimesModel
    rw [List.Sorted, List.pairwise_map]
    have hrange := List.pairwise_lt_range nScenes
    refine hrange.imp_of_mem ?_
    intro a b _ _ hab
    cases ha : firstIdxFromScene a lines with
    | none =>
        cases hb : firstIdxFromScene b lines with
        | none => exact le_refl _
        | some jb =>
            obtain ⟨l, hg, hsc⟩ := firstIdxFromScene_spec b lines jb hb
            obtain ⟨hblt, hget⟩ := List.get?_eq_some.mp hg
            have hmem : l ∈ lines := hget ▸ List.get_mem lines jb hblt
            obtain ⟨ia, hia⟩ := firstIdxFromScene_isSome a lines
              ⟨l, hmem, le_trans (Nat.le_of_lt hab) hsc⟩
            rw [ha] at hia
            cases hia
    | some ia =>
        cases hb : firstIdxFromScene b lines with
        | none =>
            show (placeRec bufs lines 0 0).1.getD ia 0 ≤ (placeRec bufs lines 0 0).2
            exact placeRec_getD_le_snd bufs hdur lines ia
              (firstIdxFromScene_lt a lines ia ha)
        | some ib =>
            show (placeRec bufs lines 0 0).1.getD ia 0 ≤
              (placeRec bufs lines 0 0).1.getD ib 0
            have hmono := firstIdxFromScene_mono lines a b ia ib
              (Nat.le_of_lt hab) ha hb
            have hblen : ib < (placeRec bufs lines 0 0).1.length := by
              rw [placeRec_fst_length]
              exact firstIdxFromScene_lt b lines ib hb
            exact sorted_getD_mono _ (placeRec_sorted bufs hdur lines 0 0)
              ia ib hmono hblen

/-- Witness for C2 on the 3-line scenario with a third, dialogue-free scene. -/
theorem sceneStartTimes_length_and_monotone_witness :
    (sceneStartTimesModel 3 exBufs exLines).length = 3 ∧
    (sceneStartTimesModel 3 exBufs exLines).Sorted (· ≤ ·) :=
  sceneStartTimes_length_and_monotone 3 exBufs exLines
    (by
      intro b hb
      simp only [exBufs, List.mem_cons, List.not_mem_nil, or_false] at hb
      rcases hb with rfl | rfl | rfl <;>
        norm_num [AudioBuffer.duration, AudioBuffer.frames])

/-! ### C3: the render length truncates no scheduled clip -/

theorem clipsEnd_acc_le :
    ∀ (clips : List (AudioBuffer × ℚ)) (a : ℚ),
      a ≤ clips.foldl (fun m c => max m (c.2 + c.1.duration)) a := by
  intro clips
  induction clips with
  | nil => intro a; exact le_refl a
  | cons c rest ih =>
      intro a
      calc a ≤ max a (c.2 + c.1.duration) := le_max_left _ _
        _ ≤ rest.foldl (fun m c => max m (c.2 + c.1.duration))
              (max a (c.2 + c.1.duration)) := ih _

theorem le_clipsEnd_foldl :
    ∀ (clips : List (AudioBuffer × ℚ)) (a : ℚ) (c : AudioBuffer × ℚ), c ∈ clips →
      c.2 + c.1.duration ≤ clips.foldl (fun m c => max m (c.2 + c.1.duration)) a := by
  intro clips
  induction clips with
  | nil => intro a c hc; simp at hc
  | cons hd rest ih =>
      intro a c hc
      rcases List.mem_cons.mp hc with rfl | hmem
      · calc c.2 + c.1.duration ≤ max a (c.2 + c.1.duration) := le_max_right _ _
          _ ≤ rest.foldl (fun m c => max m (c.2 + c.1.duration))
                (max a (c.2 + c.1.duration)) := clipsEnd_acc_le rest _
      · exact ih (max a (hd.2 + hd.1.duration)) c hmem

theorem le_clipsEnd (clips : List (AudioBuffer × ℚ)) (c : AudioBuffer × ℚ)
    (hc : c ∈ clips) : c.2 + c.1.duration ≤ clipsEnd clips :=
  le_clipsEnd_foldl clips 0 c hc

theorem durAt_eq_getD (bufs : List AudioBuffer) (i : ℕ) (h : i < bufs.length)
    (d : AudioBuffer) : durAt bufs i = (bufs.getD i d).duration := by
  unfold durAt
  rw [List.get?_eq_getElem?, List.getElem?_eq_getElem h, List.getD_eq_getElem bufs d h]
  rfl

theorem lineBuffersOf_duration_nonneg (inp : MixInput)
    (hdur : ∀ b : AudioBuffer, some b ∈ inp.linesDecoded → 0 ≤ b.duration) :
    ∀ b ∈ lineBuffersOf inp, 0 ≤ b.duration := by
  intro b hb
  obtain ⟨o, ho, rfl⟩ := List.mem_map.mp hb
  cases o with
  | none =>
      show (0 : ℚ) ≤ silentBuffer.duration
      norm_num [silentBuffer, AudioBuffer.duration, AudioBuffer.frames]
  | some b0 => simpa using hdur b0 ho

/-- C3.  The total duration that sizes the offline rendering context is at
least startTime + duration for every scheduled clip: every dialogue line,
every decoded sound effect and every decoded music track, so no scheduled clip
is truncated by the render length.  The input shape is the documented one:
one linesAudio entry per dialogue line, decoded durations non-negative. -/
theorem render_covers_all_clips (inp : MixInput)
    (hlen : inp.linesDecoded.length = inp.dialogueLines.length)
    (hdur : ∀ b : AudioBuffer, some b ∈ inp.linesDecoded → 0 ≤ b.duration) :
    ∀ c ∈ (mixAudio inp).dialogueScheduled ++ (mixAudio inp).sfxScheduled ++
        (mixAudio inp).musicScheduled,
      c.startTime + c.buffer.duration ≤ (mixAudio inp).totalDuration := by
  intro c hc
  have hdur2 := lineBuffersOf_duration_nonneg inp hdur
  have hlen2 : (lineBuffersOf inp).length = inp.dialogueLines.length := by
    simpa [lineBuffersOf] using hlen
  rw [mixAudio_totalDuration]
  rcases List.mem_append.mp hc with hc12 | hc3
  · rcases List.mem_append.mp hc12 with hc1 | hc2
    · rw [mixAudio_dialogueScheduled] at hc1
      obtain ⟨i, hi, rfl⟩ := List.mem_map.mp hc1
      have hilt : i < (lineBuffersOf inp).length := List.mem_range.mp hi
      have hiln : i < inp.dialogueLines.length := hlen2 ▸ hilt
      have hend := placeRec_end_le (lineBuffersOf inp) hdur2 inp.dialogueLines 0 0 i hiln
      rw [Nat.zero_add] at hend
      rw [durAt_eq_getD (lineBuffersOf inp) i hilt silentBuffer] at hend
      exact le_trans hend (le_max_left _ _)
    · rw [mixAudio_sfxScheduled] at hc2
      obtain ⟨p, hp, rfl⟩ := List.mem_map.mp hc2
      have hend := le_clipsEnd _ p hp
      calc p.2 + p.1.duration
          ≤ clipsEnd (decodedClipsOf inp.sceneStartTimes inp.sfxList) := hend
        _ ≤ _ := le_trans (le_max_left _ _) (le_max_right _ _)
  · rw [mixAudio_musicScheduled] at hc3
    obtain ⟨p, hp, rfl⟩ := List.mem_map.mp hc3
    have hend := le_clipsEnd _ p hp
    calc p.2 + p.1.duration
        ≤ clipsEnd (decodedClipsOf inp.sceneStartTimes inp.musicList) := hend
      _ ≤ _ := le_trans (le_max_right _ _) (le_max_right _ _)

/-- Example decoded SFX buffer: one channel, one sample of value 1. -/
def exSfxBuf : AudioBuffer := { sampleRate := 1, channels := [[1]] }

/-- Example decoded music buffer. -/
def exMusicBuf : AudioBuffer := { sampleRate := 1, channels := [[1/2]] }

/-- Example decoded SFX item anchored to scene 0. -/
def exSfxItem : ClipItem :=
  { sceneIndex := 0, prompt := "rain", startTime := 2, decoded := some exSfxBuf }

/-- Example SFX item whose decode fails. -/
def exSfxFailItem : ClipItem :=
  { sceneIndex := 5, prompt := "wind", startTime := 7, decoded := none }

/-- Example decoded music item whose scene has no recorded start time. -/
def exMusicItem : ClipItem :=
  { sceneIndex := 3, prompt := "calm", startTime := 4, decoded := some exMusicBuf }

/-- Concrete mixAudio input: 3 dialogue lines whose middle clip fails to
decode, one decoded SFX in scene 0 plus one failed SFX, one decoded music clip
whose scene has no recorded start time, and two recorded scene start times. -/
def exInp : MixInput :=
  { linesDecoded := [some { sampleRate := 2, channels := [[0, 0]] },
                     none,
                     some { sampleRate := 2, channels := [[0, 0, 0, 0]] }]
    dialogueLines := exLines
    sfxList := [exSfxItem, exSfxFailItem]
    musicList := [exMusicItem]
    sceneStartTimes := [0, 3] }

/-- Witness for C3 at the concrete input. -/
theorem render_covers_all_clips_witness :
    exInp.linesDecoded.length = exInp.dialogueLines.length ∧
    (∀ b : AudioBuffer, some b ∈ exInp.linesDecoded → 0 ≤ b.duration) ∧
    ∀ c ∈ (mixAudio exInp).dialogueScheduled ++ (mixAudio exInp).sfxScheduled ++
        (mixAudio exInp).musicScheduled,
      c.startTime + c.buffer.duration ≤ (mixAudio exInp).totalDuration := by
  have hlen : exInp.linesDecoded.length = exInp.dialogueLines.length := by decide
  have hdur : ∀ b : AudioBuffer, some b ∈ exInp.linesDecoded → 0 ≤ b.duration := by
    intro b hb
    simp only [exInp, List.mem_cons, List.not_mem_nil, or_false,
      Option.some.injEq, reduceCtorEq, false_or] at hb
    rcases hb with rfl | rfl <;> norm_num [AudioBuffer.duration, AudioBuffer.frames]
  exact ⟨hlen, hdur, render_covers_all_clips exInp hlen hdur⟩

/-! ### C4/C5: loudness normalization -/

theorem foldl_max_abs_acc_le :
    ∀ (data : List ℚ) (a : ℚ), a ≤ data.foldl (fun q s => max q |s|) a := by
  intro data
  induction data with
  | nil => intro a; exact le_refl a
  | cons s rest ih =>
      intro a
      calc a ≤ max a |s| := le_max_left _ _
        _ ≤ rest.foldl (fun q s => max q |s|) (max a |s|) := ih _

theorem abs_le_foldl_max :
    ∀ (data : List ℚ) (a : ℚ) (s : ℚ), s ∈ data →
      |s| ≤ data.foldl (fun q s => max q |s|) a := by
  intro data
  induction data with
  | nil => intro a s hs; simp at hs
  | cons hd rest ih =>
      intro a s hs
      rcases List.mem_cons.mp hs with rfl | hmem
      · calc |s| ≤ max a |s| := le_max_right _ _
          _ ≤ rest.foldl (fun q s => max q |s|) (max a |s|) := foldl_max_abs_acc_le _ _
      · exact ih (max a |hd|) s hmem

theorem peak_foldl_acc_le :
    ∀ (chs : List (List ℚ)) (a : ℚ),
      a ≤ chs.foldl (fun p data => data.foldl (fun q s => max q |s|) p) a := by
  intro chs
  induction chs with
  | nil => intro a; exact le_refl a
  | cons d rest ih =>
      intro a
      calc a ≤ d.foldl (fun q s => max q |s|) a := foldl_max_abs_acc_le d a
        _ ≤ _ := ih _

theorem abs_le_peak_foldl :
    ∀ (chs : List (List ℚ)) (a : ℚ) (ch : List ℚ) (s : ℚ), ch ∈ chs → s ∈ ch →
      |s| ≤ chs.foldl (fun p data => data.foldl (fun q s => max q |s|) p) a := by
  intro chs
  induction chs with
  | nil => intro a ch s hch _; simp at hch
  | cons d rest ih =>
      intro a ch s hch hs
      rcases List.mem_cons.mp hch with rfl | hmem
      · calc |s| ≤ ch.foldl (fun q s => max q |s|) a := abs_le_foldl_max ch a s hs
          _ ≤ _ := peak_foldl_acc_le rest _
      · exact ih _ ch s hmem hs

theorem peak_nonneg (b : AudioBuffer) : 0 ≤ b.peak :=
  peak_foldl_acc_le b.channels 0

theorem abs_le_peak (b : AudioBuffer) (ch : List ℚ) (s : ℚ)
    (hch : ch ∈ b.channels) (hs : s ∈ ch) : |s| ≤ b.peak :=
  abs_le_peak_foldl b.channels 0 ch s hch hs

/-- C4.  Every scheduled sound-effect clip is peak-normalized: with p the
maximum absolute sample over all channels (the peak scan), the gain of the clip is
0.6/p when p > 0 — so the rendered peak gain*p is exactly 0.6 — and exactly
0.6 when p = 0 (an all-silent clip, every sample 0), with no division by
zero. -/
theorem sfx_peak_normalized (inp : MixInput) (c : ScheduledClip)
    (hc : c ∈ (mixAudio inp).sfxScheduled) :
    (0 < c.buffer.peak →
      c.gain = TARGET_PEAK / c.buffer.peak ∧ c.gain * c.buffer.peak = TARGET_PEAK) ∧
    (c.buffer.peak = 0 →
      c.gain = TARGET_PEAK ∧ ∀ ch ∈ c.buffer.channels, ∀ s ∈ ch, s = 0) ∧
    (∀ ch ∈ c.buffer.channels, ∀ s ∈ ch, |s| ≤ c.buffer.peak) := by
  rw [mixAudio_sfxScheduled] at hc
  obtain ⟨p, _, rfl⟩ := List.mem_map.mp hc
  refine ⟨fun hpos => ?_, fun hzero => ?_, fun ch hch s hs => abs_le_peak _ ch s hch hs⟩
  · have hgain : sfxGain p.1 = TARGET_PEAK / p.1.peak := if_pos hpos
    exact ⟨hgain, by rw [hgain]; exact div_mul_cancel₀ TARGET_PEAK (ne_of_gt hpos)⟩
  · constructor
    · show sfxGain p.1 = TARGET_PEAK
      unfold sfxGain
      rw [if_neg (by rw [hzero]; exact lt_irrefl 0)]
    · intro ch hch s hs
      have h1 := abs_le_peak p.1 ch s hch hs
      rw [hzero] at h1
      exact abs_nonpos_iff.mp h1

/-- The sound-effect clip mixAudio schedules for the decoded SFX item of exInp. -/
def exSfxClip : ScheduledClip :=
  { buffer := exSfxBuf, startTime := 0, gain := sfxGain exSfxBuf }

/-- Witness for C4 at the concrete input. -/
theorem sfx_peak_normalized_witness :
    exSfxClip ∈ (mixAudio exInp).sfxScheduled ∧
    ((0 < exSfxClip.buffer.peak →
      exSfxClip.gain = TARGET_PEAK / exSfxClip.buffer.peak ∧
        exSfxClip.gain * exSfxClip.buffer.peak = TARGET_PEAK) ∧
    (exSfxClip.buffer.peak = 0 →
      exSfxClip.gain = TARGET_PEAK ∧
        ∀ ch ∈ exSfxClip.buffer.channels, ∀ s ∈ ch, s = 0) ∧
    (∀ ch ∈ exSfxClip.buffer.channels, ∀ s ∈ ch, |s| ≤ exSfxClip.buffer.peak)) := by
  have hc : exSfxClip ∈ (mixAudio exInp).sfxScheduled := by
    rw [mixAudio_sfxScheduled]
    simp [decodedClipsOf, exInp, placedStart, exSfxClip, exSfxItem, exSfxFailItem]
  exact ⟨hc, sfx_peak_normalized exInp exSfxClip hc⟩

/-- C5.  Every scheduled music clip is connected through a gain of exactly
0.18, a constant independent of the buffer of the clip — music is never
peak-normalized. -/
theorem music_fixed_gain (inp : MixInput) (c : ScheduledClip)
    (hc : c ∈ (mixAudio inp).musicScheduled) :
    c.gain = MUSIC_GAIN ∧ c.gain = 18 / 100 := by
  rw [mixAudio_musicScheduled] at hc
  obtain ⟨p, _, rfl⟩ := List.mem_map.mp hc
  exact ⟨rfl, rfl⟩

/-- The music clip mixAudio schedules for the decoded music item of exInp: its scene
(index 3) has no recorded start time, so it is placed at its fallback offset. -/
def exMusicClip : ScheduledClip :=
  { buffer := exMusicBuf, startTime := 4, gain := MUSIC_GAIN }

/-- Witness for C5 at the concrete input. -/
theorem music_fixed_gain_witness :
    exMusicClip ∈ (mixAudio exInp).musicScheduled ∧
    exMusicClip.gain = MUSIC_GAIN ∧ exMusicClip.gain = 18 / 100 := by
  have hc : exMusicClip ∈ (mixAudio exInp).musicScheduled := by
    rw [mixAudio_musicScheduled]
    simp [decodedClipsOf, exInp, placedStart, exMusicClip, exMusicItem]
  exact ⟨hc, music_fixed_gain exInp exMusicClip hc⟩

/-! ### C6: decode-failure policy -/

theorem decodedClipsOf_length (sst : List ℚ) :
    ∀ items : List ClipItem,
      (decodedClipsOf sst items).length =
        (items.filter (fun it => it.decoded.isSome)).length := by
  intro items
  induction items with
  | nil => rfl
  | cons it rest ih =>
      cases hd : it.decoded with
      | none =>
          simp only [decodedClipsOf, List.filterMap_cons, hd, Option.map_none',
            List.filter_cons, Option.isSome_none, Bool.false_eq_true, if_false]
          exact ih
      | some b =>
          simp only [decodedClipsOf, List.filterMap_cons, hd, Option.map_some',
            List.filter_cons, Option.isSome_some, if_true, List.length_cons]
          exact congrArg (· + 1) ih

/-- C6.  Decode-failure policy of mixAudio: the timeline always has exactly one
slot per dialogue line; a dialogue clip that fails to decode occupies its slot
with the all-zero 1-frame placeholder buffer, contributing only 1/44100 s to
the cursor; a sound-effect or music clip that fails to decode is omitted
entirely (the scheduled lists keep exactly the successfully decoded items);
mixAudio is a total function, so no decode error escapes it. -/
theorem decode_failure_policy (inp : MixInput) :
    (mixAudio inp).startTimes.length = inp.dialogueLines.length ∧
    (lineBuffersOf inp).length = inp.linesDecoded.length ∧
    (∀ i : ℕ, inp.linesDecoded.get? i = some none →
      (lineBuffersOf inp).get? i = some silentBuffer) ∧
    silentBuffer.duration = 1 / 44100 ∧
    (∀ ch ∈ silentBuffer.channels, ∀ s ∈ ch, s = 0) ∧
    (mixAudio inp).sfxScheduled.length =
      (inp.sfxList.filter (fun it => it.decoded.isSome)).length ∧
    (mixAudio inp).musicScheduled.length =
      (inp.musicList.filter (fun it => it.decoded.isSome)).length := by
  refine ⟨?_, ?_, ?_, ?_, ?_, ?_, ?_⟩
  · rw [mixAudio_startTimes, placeRec_fst_length]
  · simp [lineBuffersOf]
  · intro i hi
    unfold lineBuffersOf
    rw [List.get?_eq_getElem?] at hi ⊢
    rw [List.getElem?_map, hi]
    rfl
  · norm_num [silentBuffer, AudioBuffer.duration, AudioBuffer.frames]
  · intro ch hch s hs
    simp only [silentBuffer, List.mem_cons, List.not_mem_nil, or_false] at hch
    subst hch
    simpa using hs
  · rw [mixAudio_sfxScheduled, List.length_map, decodedClipsOf_length]
  · rw [mixAudio_musicScheduled, List.length_map, decodedClipsOf_length]

/-- Witness for C6 at the concrete input: line 2 of 3 fails to decode, yet all
3 slots survive and the failed sound effect is dropped. -/
theorem decode_failure_policy_witness :
    exInp.linesDecoded.get? 1 = some none ∧
    (lineBuffersOf exInp).get? 1 = some silentBuffer ∧
    (mixAudio exInp).startTimes.length = exInp.dialogueLines.length ∧
    (mixAudio exInp).sfxScheduled.length =
      (exInp.sfxList.filter (fun it => it.decoded.isSome)).length := by
  have h := decode_failure_policy exInp
  exact ⟨by decide, h.2.2.1 1 (by decide), h.1, h.2.2.2.2.2.1⟩

/-! ### C8: scene-anchored placement precedence -/

theorem placedStart_anchored (sst : List ℚ) (it : ClipItem)
    (h : it.sceneIndex < sst.length) :
    placedStart sst it = sst.getD it.sceneIndex 0 := by
  unfold placedStart
  rw [List.get?_eq_getElem?, List.getElem?_eq_getElem h, List.getD_eq_getElem sst 0 h]
  rfl

theorem placedStart_fallback (sst : List ℚ) (it : ClipItem)
    (h : sst.length ≤ it.sceneIndex) :
    placedStart sst it = it.startTime := by
  unfold placedStart
  rw [List.get?_eq_none.mpr h]
  rfl

theorem decodedClipsOf_mem (sst : List ℚ) (items : List ClipItem) (it : ClipItem)
    (b : AudioBuffer) (hmem : it ∈ items) (hdec : it.decoded = some b) :
    (b, placedStart sst it) ∈ decodedClipsOf sst items := by
  refine List.mem_filterMap.mpr ⟨it, hmem, ?_⟩
  rw [hdec]
  rfl

/-- C8.  Scene-anchored placement precedence: every decoded sound-effect or
music clip is scheduled at the recorded start time of its owning scene whenever
that entry exists in sceneStartTimes, and only otherwise at its own
server-supplied fallback startTime. -/
theorem scene_anchor_precedence (inp : MixInput) (it : ClipItem) (b : AudioBuffer) :
    (it ∈ inp.sfxList → it.decoded = some b →
      ∃ c ∈ (mixAudio inp).sfxScheduled, c.buffer = b ∧
        (it.sceneIndex < inp.sceneStartTimes.length →
          c.startTime = inp.sceneStartTimes.getD it.sceneIndex 0) ∧
        (inp.sceneStartTimes.length ≤ it.sceneIndex →
          c.startTime = it.startTime)) ∧
    (it ∈ inp.musicList → it.decoded = some b →
      ∃ c ∈ (mixAudio inp).musicScheduled, c.buffer = b ∧
        (it.sceneIndex < inp.sceneStartTimes.length →
          c.startTime = inp.sceneStartTimes.getD it.sceneIndex 0) ∧
        (inp.sceneStartTimes.length ≤ it.sceneIndex →
          c.startTime = it.startTime)) := by
  constructor
  · intro hmem hdec
    refine ⟨{ buffer := b, startTime := placedStart inp.sceneStartTimes it
              gain := sfxGain b }, ?_, rfl, ?_, ?_⟩
    · rw [mixAudio_sfxScheduled]
      exact List.mem_map.mpr
        ⟨(b, placedStart inp.sceneStartTimes it),
         decodedClipsOf_mem inp.sceneStartTimes inp.sfxList it b hmem hdec, rfl⟩
    · intro h; exact placedStart_anchored inp.sceneStartTimes it h
    · intro h; exact placedStart_fallback inp.sceneStartTimes it h
  · intro hmem hdec
    refine ⟨{ buffer := b, startTime := placedStart inp.sceneStartTimes it
              gain := MUSIC_GAIN }, ?_, rfl, ?_, ?_⟩
    · rw [mixAudio_musicScheduled]
      exact List.mem_map.mpr
        ⟨(b, placedStart inp.sceneStartTimes it),
         decodedClipsOf_mem inp.sceneStartTimes inp.musicList it b hmem hdec, rfl⟩
    · intro h; exact placedStart_anchored inp.sceneStartTimes it h
    · intro h; exact placedStart_fallback inp.sceneStartTimes it h

/-- Witness for C8 at the concrete input: the decoded SFX item of exInp is
anchored to the recorded start of scene 0, and the scene of the music item (3) has no
recorded start. -/
theorem scene_anchor_precedence_witness :
    exSfxItem ∈ exInp.sfxList ∧ exMusicItem ∈ exInp.musicList ∧
    (∃ c ∈ (mixAudio exInp).sfxScheduled, c.buffer = exSfxBuf ∧
      (exSfxItem.sceneIndex < exInp.sceneStartTimes.length →
        c.startTime = exInp.sceneStartTimes.getD exSfxItem.sceneIndex 0) ∧
      (exInp.sceneStartTimes.length ≤ exSfxItem.sceneIndex →
        c.startTime = exSfxItem.startTime)) ∧
    (∃ c ∈ (mixAudio exInp).musicScheduled, c.buffer = exMusicBuf ∧
      (exMusicItem.sceneIndex < exInp.sceneStartTimes.length →
        c.startTime = exInp.sceneStartTimes.getD exMusicItem.sceneIndex 0) ∧
      (exInp.sceneStartTimes.length ≤ exMusicItem.sceneIndex →
        c.startTime = exMusicItem.startTime)) := by
  have hmem1 : exSfxItem ∈ exInp.sfxList := by simp [exInp]
  have hmem2 : exMusicItem ∈ exInp.musicList := by simp [exInp]
  exact ⟨hmem1, hmem2,
    (scene_anchor_precedence exInp exSfxItem exSfxBuf).1 hmem1 rfl,
    (scene_anchor_precedence exInp exMusicItem exMusicBuf).2 hmem2 rfl⟩

/-! ### C7: voice assignment (src/unnamed/part_002) -/

inductive SegType
  | narration
  | dialogue
deriving Repr, DecidableEq

/-- src/unnamed/part_002 lines 17-21. -/
structure Segment where
  type : SegType
  text : String
  speaker : Option String
deriving Repr, DecidableEq

/-- src/unnamed/part_002 lines 23-27. -/
structure VoiceAssignment where
  voiceId : String
  voiceName : String
  description : String
deriving Repr, DecidableEq

/-- One VOICE_POOL entry: id, name, description. -/
structure VoicePoolEntry where
  id : String
  name : String
  description : String
deriving Repr, DecidableEq

/-- src/unnamed/part_002 lines 7-15: the record of 7 pool keys. -/
structure VoicePoolRec where
  narrator : VoicePoolEntry
  slot0 : VoicePoolEntry
  slot1 : VoicePoolEntry
  slot2 : VoicePoolEntry
  slot3 : VoicePoolEntry
  slot4 : VoicePoolEntry
  overflow : VoicePoolEntry
deriving Repr, DecidableEq

def VOICE_POOL : VoicePoolRec :=
  { narrator := ⟨"JBFqnCBsd6RMkjVDRZzb", "George", "Raspy, middle-aged British male — purpose-built for narration"⟩
    slot0 := ⟨"21m00Tcm4TlvDq8ikWAM", "Rachel", "Calm, young American female — optimised for narration"⟩
    slot1 := ⟨"ErXwobaYiN019PkySvjV", "Antoni", "Well-rounded, young American male — suited for narration"⟩
    slot2 := ⟨"XrExE9yKIg1WjnnlVkGX", "Matilda", "Warm, young American female — audiobook specialist"⟩
    slot3 := ⟨"TxGEqnHWrfWFTfGW9XjX", "Josh", "Deep, young American male — narration"⟩
    slot4 := ⟨"VR6AewLTigWG4xSOukaG", "Arnold", "Crisp, middle-aged American male — narration"⟩
    overflow := ⟨"AZnzlk1XvdvUeBnXmlld", "Domi", "Strong, young American female — narration"⟩ }

/-- src/unnamed/part_002 line 37: VOICE_POOL[slotKey] with
slotKey = slotIndex < 5 ? slot(slotIndex) : overflow. -/
def poolEntry (slotIndex : ℕ) : VoicePoolEntry :=
  if slotIndex < 5 then
    match slotIndex with
    | 0 => VOICE_POOL.slot0
    | 1 => VOICE_POOL.slot1
    | 2 => VOICE_POOL.slot2
    | 3 => VOICE_POOL.slot3
    | _ => VOICE_POOL.slot4
  else VOICE_POOL.overflow

/-- src/unnamed/part_002 lines 38-42: the stored assignment fields. -/
def entryToAssignment (e : VoicePoolEntry) : VoiceAssignment :=
  { voiceId := e.id, voiceName := e.name, description := e.description }

def narratorAssignment : VoiceAssignment := entryToAssignment VOICE_POOL.narrator

/-- The property names a plain JS object literal inherits from
Object.prototype.  voiceMap is such a literal, so voiceMap[name] for any of
these is an inherited function (or, for proto, an object) — always truthy. -/
def OBJECT_PROTOTYPE_KEYS : List String :=
  ["constructor", "hasOwnProperty", "isPrototypeOf", "propertyIsEnumerable",
   "toLocaleString", "toString", "valueOf", "__defineGetter__",
   "__defineSetter__", "__lookupGetter__", "__lookupSetter__", "__proto__"]

/-- src/unnamed/part_002 lines 35-45: one loop iteration of buildVoiceMap.
The JS condition seg.type === "dialogue" && seg.speaker && !voiceMap[seg.speaker]
skips non-dialogue segments, absent or empty (falsy) speakers, and every
speaker for which voiceMap[speaker] is truthy: own keys already assigned AND
the Object.prototype property names the object literal inherits; otherwise the
current slot voice (or overflow) is appended and slotIndex is bumped while it
is below 5. -/
def buildStep (acc : List (String × VoiceAssignment) × ℕ) (seg : Segment) :
    List (String × VoiceAssignment) × ℕ :=
  match seg.type, seg.speaker with
  | SegType.dialogue, some sp =>
      if sp ≠ "" ∧ sp ∉ OBJECT_PROTOTYPE_KEYS ∧ acc.1.lookup sp = none then
        (acc.1 ++ [(sp, entryToAssignment (poolEntry acc.2))],
         if acc.2 < 5 then acc.2 + 1 else acc.2)
      else acc
  | _, _ => acc

/-- src/unnamed/part_002 lines 29-48: buildVoiceMap.  The JS object (insertion
ordered, own-key lookup plus inherited Object.prototype names) is modelled as
an association list plus the OBJECT_PROTOTYPE_KEYS guard; it is seeded with
the narrator entry and slotIndex 0. -/
def buildVoiceMap (segments : List Segment) : List (String × VoiceAssignment) :=
  (segments.foldl buildStep ([("narrator", narratorAssignment)], 0)).1

/-- The distinct non-empty dialogue speakers of a segment list that are
neither Object.prototype property names nor in keys, in first-seen order. -/
def newSpeakers : List String → List Segment → List String
  | _, [] => []
  | keys, seg :: rest =>
      match seg.type, seg.speaker with
      | SegType.dialogue, some sp =>
          if sp ≠ "" ∧ sp ∉ OBJECT_PROTOTYPE_KEYS ∧ sp ∉ keys then
            sp :: newSpeakers (keys ++ [sp]) rest
          else newSpeakers keys rest
      | _, _ => newSpeakers keys rest

/-- The association-list suffix buildVoiceMap appends: the k-th new speaker
paired with the pool entry for the (saturating) slot counter. -/
def assignedList (s : ℕ) : List String → List (String × VoiceAssignment)
  | [] => []
  | sp :: rest =>
      (sp, entryToAssignment (poolEntry s)) ::
        assignedList (if s < 5 then s + 1 else s) rest

theorem lookup_eq_none_iff (sp : String) :
    ∀ m : List (String × VoiceAssignment),
      m.lookup sp = none ↔ sp ∉ m.map Prod.fst := by
  intro m
  induction m with
  | nil => simp
  | cons p rest ih =>
      obtain ⟨k, v⟩ := p
      by_cases h : sp = k
      · subst h
        simp [List.lookup]
      · have hb : (sp == k) = false := by simpa using h
        have hstep : List.lookup sp ((k, v) :: rest) = List.lookup sp rest := by
          simp [List.lookup, hb]
        rw [hstep, ih, List.map_cons]
        simp [h]

theorem buildFold_eq :
    ∀ (segs : List Segment) (m : List (String × VoiceAssignment)) (s : ℕ),
      (segs.foldl buildStep (m, s)).1 =
        m ++ assignedList s (newSpeakers (m.map Prod.fst) segs) := by
  intro segs
  induction segs with
  | nil => intro m s; simp [newSpeakers, assignedList]
  | cons seg rest ih =>
      intro m s
      rw [List.foldl_cons]
      obtain ⟨t, tx, spo⟩ := seg
      cases t with
      | narration => simpa [buildStep, newSpeakers] using ih m s
      | dialogue =>
          cases spo with
          | none => simpa [buildStep, newSpeakers] using ih m s
          | some sp =>
              by_cases hcond : sp ≠ "" ∧ sp ∉ OBJECT_PROTOTYPE_KEYS ∧ sp ∉ m.map Prod.fst
              · have hlk : sp ≠ "" ∧ sp ∉ OBJECT_PROTOTYPE_KEYS ∧ m.lookup sp = none :=
                  ⟨hcond.1, hcond.2.1, (lookup_eq_none_iff sp m).mpr hcond.2.2⟩
                simp only [buildStep, if_pos hlk]
                rw [ih]
                simp only [newSpeakers, if_pos hcond, List.map_append,
                  List.map_cons, List.map_nil]
                rw [assignedList]
                simp [List.append_assoc]
              · have hlk : ¬(sp ≠ "" ∧ sp ∉ OBJECT_PROTOTYPE_KEYS ∧ m.lookup sp = none) := by
                  intro hk
                  exact hcond ⟨hk.1, hk.2.1, (lookup_eq_none_iff sp m).mp hk.2.2⟩
                simp only [buildStep, if_neg hlk]
                rw [ih]
                simp only [newSpeakers, if_neg hcond]

theorem buildVoiceMap_eq (segs : List Segment) :
    buildVoiceMap segs =
      ("narrator", narratorAssignment) ::
        assignedList 0 (newSpeakers ["narrator"] segs) := by
  unfold buildVoiceMap
  rw [buildFold_eq]
  rfl

theorem newSpeakers_mem_cond :
    ∀ (segs : List Segment) (keys : List String) (sp : String),
      sp ∈ newSpeakers keys segs →
      sp ≠ "" ∧ sp ∉ OBJECT_PROTOTYPE_KEYS ∧ sp ∉ keys := by
  intro segs
  induction segs with
  | nil => intro keys sp h; simp [newSpeakers] at h
  | cons seg rest ih =>
      intro keys sp h
      obtain ⟨t, tx, spo⟩ := seg
      cases t with
      | narration => exact ih keys sp (by simpa [newSpeakers] using h)
      | dialogue =>
          cases spo with
          | none => exact ih keys sp (by simpa [newSpeakers] using h)
          | some sp0 =>
              simp only [newSpeakers] at h
              by_cases hcond : sp0 ≠ "" ∧ sp0 ∉ OBJECT_PROTOTYPE_KEYS ∧ sp0 ∉ keys
              · rw [if_pos hcond] at h
                rcases List.mem_cons.mp h with rfl | hmem
                · exact hcond
                · obtain ⟨h1, h2, h3⟩ := ih (keys ++ [sp0]) sp hmem
                  exact ⟨h1, h2, fun hk => h3 (List.mem_append_left _ hk)⟩
              · rw [if_neg hcond] at h
                exact ih keys sp h

theorem newSpeakers_nodup :
    ∀ (segs : List Segment) (keys : List String), (newSpeakers keys segs).Nodup := by
  intro segs
  induction segs with
  | nil => intro keys; simp [newSpeakers]
  | cons seg rest ih =>
      intro keys
      obtain ⟨t, tx, spo⟩ := seg
      cases t with
      | narration => simpa [newSpeakers] using ih keys
      | dialogue =>
          cases spo with
          | none => simpa [newSpeakers] using ih keys
          | some sp0 =>
              simp only [newSpeakers]
              by_cases hcond : sp0 ≠ "" ∧ sp0 ∉ OBJECT_PROTOTYPE_KEYS ∧ sp0 ∉ keys
              · rw [if_pos hcond]
                refine List.nodup_cons.mpr ⟨?_, ih (keys ++ [sp0])⟩
                intro hmem
                exact (newSpeakers_mem_cond rest (keys ++ [sp0]) sp0 hmem).2.2
                  (List.mem_append_right _ (List.mem_singleton.mpr rfl))
              · rw [if_neg hcond]
                exact ih keys

theorem poolEntry_ge5 (k : ℕ) (h : 5 ≤ k) : poolEntry k = VOICE_POOL.overflow := by
  unfold poolEntry
  rw [if_neg (by omega)]

theorem assignedList_keys :
    ∀ (L : List String) (s : ℕ), (assignedList s L).map Prod.fst = L := by
  intro L
  induction L with
  | nil => intro s; rfl
  | cons sp rest ih => intro s; simp [assignedList, ih]

theorem assignedList_lookup :
    ∀ (L : List String) (s k : ℕ) (sp : String),
      L.get? k = some sp → L.Nodup →
      (assignedList s L).lookup sp = some (entryToAssignment (poolEntry (s + k))) := by
  intro L
  induction L with
  | nil => intro s k sp h _; simp at h
  | cons sp0 rest ih =>
      intro s k sp h hnd
      cases k with
      | zero =>
          have hsp : sp0 = sp := by simpa using h
          subst hsp
          simp [assignedList, List.lookup]
      | succ k =>
          rw [List.get?_cons_succ] at h
          have hmem : sp ∈ rest := by
            obtain ⟨hk2, hget⟩ := List.get?_eq_some.mp h
            exact hget ▸ List.get_mem rest k hk2
          have hne : (sp == sp0) = false := by
            rcases List.nodup_cons.mp hnd with ⟨hnm, _⟩
            have : sp ≠ sp0 := fun he => hnm (he ▸ hmem)
            simpa using this
          rw [assignedList, List.lookup, hne]
          have hrec := ih (if s < 5 then s + 1 else s) k sp h
            (List.nodup_cons.mp hnd).2
          rw [hrec]
          by_cases hs : s < 5
          · rw [if_pos hs]
            have harith : s + 1 + k = s + (k + 1) := by omega
            rw [harith]
          · rw [if_neg hs]
            rw [poolEntry_ge5 (s + k) (by omega), poolEntry_ge5 (s + (k + 1)) (by omega)]

theorem assignedList_values :
    ∀ (L : List String) (s : ℕ) (p : String × VoiceAssignment),
      p ∈ assignedList s L → ∃ k, p.2 = entryToAssignment (poolEntry k) := by
  intro L
  induction L with
  | nil => intro s p h; simp [assignedList] at h
  | cons sp0 rest ih =>
      intro s p h
      rw [assignedList] at h
      rcases List.mem_cons.mp h with rfl | hmem
      · exact ⟨s, rfl⟩
      · exact ih _ p hmem

theorem poolEntry_mem (s : ℕ) :
    poolEntry s ∈ [VOICE_POOL.slot0, VOICE_POOL.slot1, VOICE_POOL.slot2,
      VOICE_POOL.slot3, VOICE_POOL.slot4, VOICE_POOL.overflow] := by
  unfold poolEntry
  by_cases h : s < 5
  · rw [if_pos h]
    interval_cases s <;> simp
  · rw [if_neg h]
    simp

/-- C7 (amended).  buildVoiceMap always contains the narrator entry mapped to
the narrator voice, exactly once; its keys are duplicate-free; the distinct
non-empty dialogue speakers that are neither the reserved key "narrator" nor a
JS Object.prototype property name (for which voiceMap[speaker] is truthy via
the prototype chain, so the code skips them) are assigned voices in first-seen
order, the k-th such speaker receiving pool entry k — the five
pairwise-distinct character-slot voices for k < 5 and the single shared
overflow voice for every k ≥ 5; no prototype-named or empty-named speaker ever
becomes a key; and every stored assignment comes from the fixed 7-voice pool,
so at most 6 distinct non-overflow voices ever appear. -/
theorem voice_assignment (segs : List Segment) :
    (buildVoiceMap segs).lookup "narrator" = some narratorAssignment ∧
    ((buildVoiceMap segs).map Prod.fst).count "narrator" = 1 ∧
    ((buildVoiceMap segs).map Prod.fst).Nodup ∧
    (∀ k sp, (newSpeakers ["narrator"] segs).get? k = some sp →
      (buildVoiceMap segs).lookup sp = some (entryToAssignment (poolEntry k))) ∧
    (∀ k, 5 ≤ k → poolEntry k = VOICE_POOL.overflow) ∧
    ([VOICE_POOL.slot0, VOICE_POOL.slot1, VOICE_POOL.slot2, VOICE_POOL.slot3,
      VOICE_POOL.slot4].map VoicePoolEntry.id).Nodup ∧
    (∀ p ∈ buildVoiceMap segs, p.1 = "narrator" ∨
      (p.1 ≠ "" ∧ p.1 ∉ OBJECT_PROTOTYPE_KEYS)) ∧
    (∀ p ∈ buildVoiceMap segs, p.2 = narratorAssignment ∨
      ∃ k, p.2 = entryToAssignment (poolEntry k)) := by
  have hkeys : (buildVoiceMap segs).map Prod.fst =
      "narrator" :: newSpeakers ["narrator"] segs := by
    rw [buildVoiceMap_eq]
    simp [assignedList_keys]
  have hnmem : "narrator" ∉ newSpeakers ["narrator"] segs := by
    intro hm
    exact (newSpeakers_mem_cond segs ["narrator"] "narrator" hm).2.2
      (List.mem_singleton.mpr rfl)
  refine ⟨?_, ?_, ?_, ?_, poolEntry_ge5, by decide, ?_, ?_⟩
  · rw [buildVoiceMap_eq]
    simp [List.lookup]
  · rw [hkeys]
    rw [List.count_cons_self, List.count_eq_zero.mpr hnmem]
  · rw [hkeys]
    exact List.nodup_cons.mpr ⟨hnmem, newSpeakers_nodup segs ["narrator"]⟩
  · intro k sp hk
    have hspmem : sp ∈ newSpeakers ["narrator"] segs := by
      obtain ⟨hlt, hget⟩ := List.get?_eq_some.mp hk
      exact hget ▸ List.get_mem _ k hlt
    have hspne : (sp == "narrator") = false := by
      have : sp ≠ "narrator" := by
        intro he
        exact hnmem (he ▸ hspmem)
      simpa using this
    rw [buildVoiceMap_eq, List.lookup, hspne]
    have := assignedList_lookup (newSpeakers ["narrator"] segs) 0 k sp hk
      (newSpeakers_nodup segs ["narrator"])
    rw [this, Nat.zero_add]
  · intro p hp
    rw [buildVoiceMap_eq] at hp
    rcases List.mem_cons.mp hp with rfl | hmem
    · exact Or.inl rfl
    · have hkey : p.1 ∈ newSpeakers ["narrator"] segs := by
        have hk2 := assignedList_keys (newSpeakers ["narrator"] segs) 0
        exact hk2 ▸ List.mem_map_of_mem Prod.fst hmem
      obtain ⟨h1, h2, _⟩ := newSpeakers_mem_cond segs ["narrator"] p.1 hkey
      exact Or.inr ⟨h1, h2⟩
  · intro p hp
    rw [buildVoiceMap_eq] at hp
    rcases List.mem_cons.mp hp with rfl | hmem
    · exact Or.inl rfl
    · exact Or.inr (assignedList_values _ 0 p hmem)

/-- A dialogue segment whose speaker is literally named "narrator": the
counterexample input for the claimed slot assignment. -/
def narratorNamedSegs : List Segment :=
  [{ type := SegType.dialogue, text := "hi", speaker := some "narrator" }]

/-- First-seen distinct dialogue speakers, as the claim words it (no
exclusions beyond being a dialogue speaker). -/
def distinctSpeakersAux : List String → List Segment → List String
  | _, [] => []
  | seen, seg :: rest =>
      match seg.type, seg.speaker with
      | SegType.dialogue, some sp =>
          if sp ∉ seen then sp :: distinctSpeakersAux (seen ++ [sp]) rest
          else distinctSpeakersAux seen rest
      | _, _ => distinctSpeakersAux seen rest

def distinctSpeakers (segs : List Segment) : List String :=
  distinctSpeakersAux [] segs

/-- Counterexample to C7 as stated: for the segment list whose single dialogue
speaker is named "narrator", the first distinct dialogue speaker does not
receive the first character-slot voice (Rachel) — it keeps the narrator voice
(George), because the map is pre-seeded with the narrator key. -/
theorem voice_assignment_claim_counterexample :
    ¬ (∀ k sp, (distinctSpeakers narratorNamedSegs).get? k = some sp →
        (buildVoiceMap narratorNamedSegs).lookup sp =
          some (entryToAssignment (poolEntry k))) := by
  intro h
  have h0 := h 0 "narrator" (by decide)
  exact absurd h0 (by decide)

/-- Witness for C7 (amended) on a 7-speaker cast that also contains a speaker
named "toString": the prototype-named speaker is skipped (never a key) while
speaker number 6 (index 5) receives the shared overflow voice. -/
def sevenSpeakerSegs : List Segment :=
  [{ type := SegType.dialogue, text := "a", speaker := some "A" },
   { type := SegType.dialogue, text := "b", speaker := some "B" },
   { type := SegType.narration, text := "n", speaker := none },
   { type := SegType.dialogue, text := "t", speaker := some "toString" },
   { type := SegType.dialogue, text := "c", speaker := some "C" },
   { type := SegType.dialogue, text := "a2", speaker := some "A" },
   { type := SegType.dialogue, text := "d", speaker := some "D" },
   { type := SegType.dialogue, text := "e", speaker := some "E" },
   { type := SegType.dialogue, text := "f", speaker := some "F" },
   { type := SegType.dialogue, text := "g", speaker := some "G" }]

theorem voice_assignment_witness :
    (newSpeakers ["narrator"] sevenSpeakerSegs).get? 0 = some "A" ∧
    (newSpeakers ["narrator"] sevenSpeakerSegs).get? 5 = some "F" ∧
    "toString" ∉ newSpeakers ["narrator"] sevenSpeakerSegs ∧
    (buildVoiceMap sevenSpeakerSegs).lookup "toString" = none ∧
    (buildVoiceMap sevenSpeakerSegs).lookup "narrator" = some narratorAssignment ∧
    (buildVoiceMap sevenSpeakerSegs).lookup "A" =
      some (entryToAssignment (poolEntry 0)) ∧
    (buildVoiceMap sevenSpeakerSegs).lookup "F" =
      some (entryToAssignment (poolEntry 5)) := by
  have h := voice_assignment sevenSpeakerSegs
  exact ⟨by decide, by decide, by decide, by decide, h.1,
    h.2.2.2.1 0 "A" (by decide), h.2.2.2.1 5 "F" (by decide)⟩

/-! ### C9: audio-URL lifecycle of handleGenerate -/

/-- The object-URL related state of the page component: the set of generated
audio URLs currently alive (created by createObjectURL and not yet revoked)
and the prevAudioUrl ref (src/app/page.tsx line 221). -/
structure UrlState where
  alive : List String
  prevAudioUrl : Option String
deriving Repr, DecidableEq

def initialUrlState : UrlState := { alive := [], prevAudioUrl := none }

/-- src/app/page.tsx line 283: if (prevAudioUrl.current)
\x7b URL.revokeObjectURL(prevAudioUrl.current); prevAudioUrl.current = null; \x7d,
executed at the top of handleGenerate before any new URL is created. -/
def revokePrev (s : UrlState) : UrlState :=
  match s.prevAudioUrl with
  | some u => { alive := s.alive.erase u, prevAudioUrl := none }
  | none => s

/-- src/app/page.tsx lines 302-304: mixAudio returns a fresh object URL which
is stored into prevAudioUrl.current and the audioUrl state. -/
def storeNew (s : UrlState) (u : String) : UrlState :=
  { alive := u :: s.alive, prevAudioUrl := some u }

/-- One invocation of handleGenerate (src/app/page.tsx lines 275-312): the
previous URL (if any) is revoked first; then, if the fetch/mix pipeline
succeeds, a new URL u is created and stored (outcome = some u); on any error
or non-ok response no URL is created (outcome = none).  Re-entry during a run
is excluded by the loading flag that disables the Generate button. -/
def runGenerate (s : UrlState) (outcome : Option String) : UrlState :=
  match outcome with
  | some u => storeNew (revokePrev s) u
  | none => revokePrev s

def runGenerations (outcomes : List (Option String)) : UrlState :=
  outcomes.foldl runGenerate initialUrlState

/-- The alive set always matches the prevAudioUrl ref. -/
def UrlInv (s : UrlState) : Prop :=
  (s.alive = [] ∧ s.prevAudioUrl = none) ∨
    ∃ u, s.alive = [u] ∧ s.prevAudioUrl = some u

theorem urlInv_revokePrev (s : UrlState) (h : UrlInv s) :
    (revokePrev s).alive = [] ∧ (revokePrev s).prevAudioUrl = none := by
  rcases h with ⟨ha, hp⟩ | ⟨u, ha, hp⟩
  · rw [revokePrev, hp]
    exact ⟨ha, hp⟩
  · rw [revokePrev, hp]
    refine ⟨?_, rfl⟩
    show s.alive.erase u = []
    rw [ha, List.erase_cons_head]

theorem urlInv_runGenerate (s : UrlState) (o : Option String) (h : UrlInv s) :
    UrlInv (runGenerate s o) := by
  obtain ⟨ha, hp⟩ := urlInv_revokePrev s h
  cases o with
  | none => exact Or.inl ⟨ha, hp⟩
  | some u =>
      refine Or.inr ⟨u, ?_, rfl⟩
      show u :: (revokePrev s).alive = [u]
      rw [ha]

theorem urlInv_runGenerations (outcomes : List (Option String)) :
    UrlInv (runGenerations outcomes) := by
  unfold runGenerations
  suffices h : ∀ s : UrlState, UrlInv s → UrlInv (outcomes.foldl runGenerate s) by
    exact h initialUrlState (Or.inl ⟨rfl, rfl⟩)
  induction outcomes with
  | nil => intro s hs; exact hs
  | cons o rest ih =>
      intro s hs
      exact ih (runGenerate s o) (urlInv_runGenerate s o hs)

/-- C9.  Resource-handle discipline across every sequence of generations: at
every reachable state — after any sequence of handleGenerate runs, and also at
the intermediate point inside a run where the previous URL has just been
revoked but the new one not yet created — at most one generated audio URL is
alive; the revocation point itself has none alive; and a run that stores a
fresh URL u leaves exactly [u] alive. -/
theorem url_handle_discipline (outcomes : List (Option String)) (u : String) :
    (runGenerations outcomes).alive.length ≤ 1 ∧
    (revokePrev (runGenerations outcomes)).alive = [] ∧
    (runGenerations (outcomes ++ [some u])).alive = [u] := by
  have hinv := urlInv_runGenerations outcomes
  refine ⟨?_, (urlInv_revokePrev _ hinv).1, ?_⟩
  · rcases hinv with ⟨ha, _⟩ | ⟨v, ha, _⟩ <;> rw [ha] <;> simp
  · unfold runGenerations
    rw [List.foldl_append]
    show (runGenerate (runGenerations outcomes) (some u)).alive = [u]
    obtain ⟨ha, _⟩ := urlInv_revokePrev _ hinv
    show u :: (revokePrev (runGenerations outcomes)).alive = [u]
    rw [ha]

/-! ### C10: the two mixAudio implementations agree -/

/-- C10.  The near-duplicate mixAudio implementations in src/app/page.tsx and
src/unnamed/part_004 are extensionally equivalent: on identical decoded
inputs they produce identical dialogue start times, identical scheduled SFX
and music clips (placement times and gains), identical total duration, and in
fact identical results. -/
theorem mixAudio_implementations_equivalent (inp : MixInput) :
    (mixAudio inp).startTimes = (mixAudioUpload inp).startTimes ∧
    (mixAudio inp).dialogueScheduled = (mixAudioUpload inp).dialogueScheduled ∧
    (mixAudio inp).sfxScheduled = (mixAudioUpload inp).sfxScheduled ∧
    (mixAudio inp).musicScheduled = (mixAudioUpload inp).musicScheduled ∧
    (mixAudio inp).totalDuration = (mixAudioUpload inp).totalDuration ∧
    mixAudio inp = mixAudioUpload inp :=
  ⟨rfl, rfl, rfl, rfl, rfl, rfl⟩

end Resonance
